/-
Verification of the media-browser core against its specification.

The TypeScript source is shallowly embedded in Lean 4:
* `resolvePhotoPath` (src/app/utils/photo-path.ts) together with models of the
  Node `path` primitives it uses (`path.basename`, `path.join` in POSIX mode)
  and of the JS string operations (`split`, slash trimming).
* the route loaders for `api.thumbnails`, `api.photos` and the slideshow
  (src/unnamed/part_000, part_002, part_003), over an abstract filesystem
  `String -> Option FType`; filesystem side effects are recorded as a trace.
* `getAllImages`/`scanDir` (src/unnamed/part_003) over an explicit directory
  tree in which a directory's entry list is `none` when `fs.readdir` throws.
* the seeded slideshow shuffle: the mulberry32 generator and the Fisher-Yates
  loop (src/unnamed/part_003, loader).  JS 32-bit arithmetic is modelled with
  `Nat` and explicit `% 2 ^ 32`; `Math.floor (rand () * (i + 1))` is exact in
  IEEE doubles whenever `m * (i + 1) < 2 ^ 53`, i.e. for every list of fewer
  than 2 ^ 21 images, and is therefore modelled as `m * (i + 1) / 2 ^ 32`.
-/
import Mathlib

namespace MediaBrowser

/-! ### JS / Node string primitives

These model, over `List Char`, exactly the string operations the source uses:
`String.prototype.split`, the regex `\/^\/+|\/+$\/g` trim, `path.basename`
(POSIX), and `String.prototype.join`. -/

/-- JS `s.split(sep)` for a single-character separator: always returns at
least one (possibly empty) group, keeps interior empty groups. -/
def chSplit (c : Char) : List Char → List (List Char)
  | [] => [[]]
  | x :: xs =>
    match chSplit c xs with
    | [] => [[]]
    | g :: gs => if x = c then [] :: g :: gs else (x :: g) :: gs

/-- `cleanUrl.split("/")` from the source, producing strings. -/
def splitSlash (s : String) : List String :=
  (chSplit '/' s.data).map fun l => String.mk l

/-- JS `parts.join("/")`. -/
def joinSlash : List String → String
  | [] => ""
  | [p] => p
  | p :: ps => p ++ "/" ++ joinSlash ps

/-- The source's `urlPath.replace(/^\/+|\/+$/g, "")`: strip leading and
trailing runs of slashes. -/
def stripSlashes (s : String) : String :=
  String.mk (((s.data.dropWhile (· = '/')).reverse.dropWhile (· = '/')).reverse)

/-- Node `path.basename` (POSIX): drop trailing slashes, then keep the part
after the last remaining slash; an all-slash or empty input gives `""`. -/
def basename (s : String) : String :=
  String.mk (((s.data.reverse.dropWhile (· = '/')).takeWhile (· ≠ '/')).reverse)

/-- The extension allow-list test `/\.(jpg|jpeg|png|gif|webp)$/i` from the
source: the lower-cased name ends with one of the dotted extensions. -/
def isImageName (s : String) : Bool :=
  let low := s.data.map Char.toLower
  [".jpg", ".jpeg", ".png", ".gif", ".webp"].any fun e =>
    low.reverse.take e.data.length == e.data.reverse

/-! ### Node `path.join` / `path.normalize` (POSIX)

`path.posix.join(a, b)` concatenates the non-empty arguments with `/` and
normalizes: empty and `.` segments vanish, `..` pops the previous segment
(kept literally at the front of a relative path, dropped at the root of an
absolute one). -/

/-- Node's `normalizeString` segment stack, accumulated in reverse. -/
def normStack (isAbs : Bool) : List String → List String → List String
  | stack, [] => stack
  | stack, s :: rest =>
    if s = "" || s = "." then normStack isAbs stack rest
    else if s = ".." then
      match stack with
      | [] => normStack isAbs (if isAbs then [] else [".."]) rest
      | t :: ts =>
        if t = ".." then normStack isAbs (".." :: t :: ts) rest
        else normStack isAbs ts rest
    else normStack isAbs (s :: stack) rest

/-- Node `path.posix.normalize`. -/
def normalizeStr (p : String) : String :=
  let l := p.data
  let isAbs := l.headD ' ' == '/'
  let trailing := l.reverse.headD ' ' == '/'
  let segs := (normStack isAbs [] (splitSlash p)).reverse
  let core := joinSlash segs
  if core = "" then (if isAbs then "/" else if trailing then "./" else ".")
  else
    let core := if trailing then core ++ "/" else core
    if isAbs then "/" ++ core else core

/-- Node `path.posix.join(a, b)`. -/
def pathJoin (a b : String) : String :=
  let parts := [a, b].filter fun s => s ≠ ""
  if parts.isEmpty then "." else normalizeStr (joinSlash parts)

/-- Canonical form of a path: absoluteness flag and normalized segments. -/
def canonSegs (p : String) : Bool × List String :=
  let isAbs := p.data.headD ' ' == '/'
  (isAbs, (normStack isAbs [] (splitSlash p)).reverse)

/-- One segment list leads another (containment of canonical paths). -/
def segWithin : List String → List String → Bool
  | [], _ => true
  | _ :: _, [] => false
  | a :: as, b :: bs => a == b && segWithin as bs

/-- `p`, once canonicalized, lies within the directory `root`. -/
def isWithin (root p : String) : Bool :=
  let r := canonSegs root
  let q := canonSegs p
  r.1 == q.1 && segWithin r.2 q.2

/-! ### The virtual path resolver (src/app/utils/photo-path.ts)

The abstract filesystem maps a physical path to `none` (no such node: `stat`
and `access` throw) or to its kind.  `fs.access` succeeds on any existing
node; probes are recorded in a trace of filesystem operations. -/

/-- Kind of an existing filesystem node, as reported by `fs.stat`. -/
inductive FType
  | file
  | dir
deriving DecidableEq, Repr

/-- A recorded filesystem side effect of a request handler. -/
inductive FsOp
  | access (p : String)
  | stat (p : String)
  | read (p : String)
  | generate (p : String)
deriving DecidableEq, Repr

/-- The `ResolveResult` union type of photo-path.ts (`null` is modelled by
`Option`); `root` carries `photoDirs`, `entry` carries
`fullPath`, `baseDir`, `relativePath`. -/
inductive ResolveResult
  | root (photoDirs : List String)
  | entry (fullPath baseDir relativePath : String)
deriving DecidableEq, Repr

/-- `process.env.PHOTO_DIRS?.split(",") || []`: an unset variable yields `[]`;
a set variable is split on commas (so `""` yields the single library `""`). -/
def parsePhotoDirs : Option String → List String
  | none => []
  | some s => (chSplit ',' s.data).map fun l => String.mk l

/-- The compatibility-search loop of `resolvePhotoPath`: probe
`path.join(dir, cleanUrl)` with `fs.access` for each configured dir, first
existing hit wins; if all probes fail, default to the first configured dir. -/
def compatSearch (fsys : String → Option FType) (cleanUrl firstDir : String) :
    List String → List FsOp → Option ResolveResult × List FsOp
  | [], ops =>
    (some (.entry (pathJoin firstDir cleanUrl) firstDir cleanUrl), ops)
  | d :: ds, ops =>
    let tryPath := pathJoin d cleanUrl
    match fsys tryPath with
    | some _ => (some (.entry tryPath d cleanUrl), ops ++ [.access tryPath])
    | none => compatSearch fsys cleanUrl firstDir ds (ops ++ [.access tryPath])

/-- `resolvePhotoPath` from src/app/utils/photo-path.ts, over the parsed
library list and the abstract filesystem, also returning the trace of
`fs.access` probes it performs. -/
def resolvePhotoPath (photoDirs : List String) (fsys : String → Option FType)
    (urlPath : String) : Option ResolveResult × List FsOp :=
  if photoDirs.isEmpty then (none, [])
  else
    let cleanUrl := stripSlashes urlPath
    if cleanUrl = "" then (some (.root photoDirs), [])
    else
      let parts := splitSlash cleanUrl
      let firstSegment := parts.headD ""
      match photoDirs.find? (fun dir => basename dir == firstSegment) with
      | some matchedDir =>
        let relativePath := joinSlash parts.tail
        (some (.entry (pathJoin matchedDir relativePath) matchedDir
          relativePath), [])
      | none => compatSearch fsys cleanUrl (photoDirs.headD "") photoDirs []

/-! ### The api.thumbnails loader (src/unnamed/part_000)

The loader checks the authorization predicate only when the ambient request
object is accessible (`reqAvail` models
`typeof Request !== "undefined" && req && req instanceof Request`).  After
`fs.stat` succeeds on a regular file, the remaining work (cache read, sharp
decode/resize/encode, cache write) either produces bytes or throws into the
catch-all; it is abstracted by the `generate` oracle. -/

/-- Responses of the api.thumbnails loader: 401, 404 "Not found",
404 "Not a file", 200, and the catch-all 500. -/
inductive ThumbOutcome
  | unauthorized
  | notFound
  | notAFile
  | ok
  | genError
deriving DecidableEq, Repr

/-- The api.thumbnails `loader`, with its filesystem-operation trace. -/
def apiThumbnailsLoader (reqAvail authed : Bool) (photoDirs : List String)
    (fsys : String → Option FType) (generate : String → Bool)
    (filePath : String) : ThumbOutcome × List FsOp :=
  if reqAvail && !authed then (.unauthorized, [])
  else
    match resolvePhotoPath photoDirs fsys filePath with
    | (none, ops) => (.notFound, ops)
    | (some (.root _), ops) => (.notFound, ops)
    | (some (.entry fullPath _ _), ops) =>
      let ops := ops ++ [.stat fullPath]
      match fsys fullPath with
      | none => (.genError, ops)
      | some .dir => (.notAFile, ops)
      | some .file =>
        let ops := ops ++ [.generate fullPath]
        if generate fullPath then (.ok, ops) else (.genError, ops)

/-! ### The api.photos loader (src/unnamed/part_002) -/

/-- Responses of the api.photos loader: 401, 200, 404. -/
inductive PhotoOutcome
  | unauthorized
  | ok
  | notFound
deriving DecidableEq, Repr

/-- The api.photos `loader`, with its filesystem-operation trace: a stat
failure or a non-file falls through to the 404 response. -/
def apiPhotosLoader (reqAvail authed : Bool) (photoDirs : List String)
    (fsys : String → Option FType) (filePath : String) :
    PhotoOutcome × List FsOp :=
  if reqAvail && !authed then (.unauthorized, [])
  else
    match resolvePhotoPath photoDirs fsys filePath with
    | (some (.entry fullPath _ _), ops) =>
      let ops := ops ++ [.stat fullPath]
      match fsys fullPath with
      | some .file => (.ok, ops ++ [.read fullPath])
      | some .dir => (.notFound, ops)
      | none => (.notFound, ops)
    | (_, ops) => (.notFound, ops)

/-- The everywhere-empty filesystem. -/
def fsEmpty : String → Option FType := fun _ => none

/-- A filesystem holding one file outside the configured library root. -/
def fsSecret : String → Option FType := fun p =>
  if p = "/data/secret/x.jpg" then some .file else none

/-- A filesystem holding one subdirectory of the library root. -/
def fsLibDir : String → Option FType := fun p =>
  if p = "/lib/a" then some .dir else none

/-- A filesystem holding one image file inside the library root. -/
def fsLibFile : String → Option FType := fun p =>
  if p = "/lib/x.jpg" then some .file else none

/-! ### The recursive image scan (src/unnamed/part_003, getAllImages/scanDir)

A directory tree: a directory whose entry list is `none` is one on which
`fs.readdir` throws.  `readdir` entry names contain no slash and are
nonempty, so the source's `path.join(relativePath, entry.name)` is plain
concatenation with a slash, modelled by `joinRel`. -/

instance {ε α : Type} [DecidableEq ε] [DecidableEq α] :
    DecidableEq (Except ε α) := fun x y =>
  match x, y with
  | .ok a, .ok b =>
    if h : a = b then .isTrue (by rw [h]) else .isFalse (by simp [h])
  | .error a, .error b =>
    if h : a = b then .isTrue (by rw [h]) else .isFalse (by simp [h])
  | .ok _, .error _ => .isFalse (by simp)
  | .error _, .ok _ => .isFalse (by simp)

/-- A filesystem subtree as enumerated by `fs.readdir` with file types. -/
inductive FTree
  | file (name : String)
  | dir (name : String) (entries : Option (List FTree))

/-- `relativePath ? path.join(relativePath, entry.name) : entry.name`. -/
def joinRel (rel n : String) : String :=
  if rel = "" then n else rel ++ "/" ++ n

/-- The comparison JS `Array.prototype.sort()` applies without a comparator:
lexicographic on code units (identical to code-point order on the strings at
hand). -/
def chLe : List Char → List Char → Bool
  | [], _ => true
  | _ :: _, [] => false
  | a :: as, b :: bs => if a < b then true else if b < a then false else chLe as bs

/-- `chLe` on strings, as a relation. -/
def strLe (a b : String) : Prop := chLe a.data b.data = true

instance : DecidableRel strLe := fun a b =>
  decidable_of_iff (chLe a.data b.data = true) Iff.rfl

instance : IsTotal String strLe where
  total a b := by
    show chLe a.data b.data = true ∨ chLe b.data a.data = true
    generalize a.data = l
    generalize b.data = m
    induction l generalizing m with
    | nil => left; rfl
    | cons x xs ih =>
      cases m with
      | nil => right; rfl
      | cons y ys =>
        rcases lt_trichotomy x y with h | h | h
        · left; simp [chLe, h]
        · subst h
          rcases ih ys with h | h
          · left; simp [chLe, lt_irrefl, h]
          · right; simp [chLe, lt_irrefl, h]
        · right; simp [chLe, h]

instance : IsTrans String strLe where
  trans a b c h₁ h₂ := by
    show chLe a.data c.data = true
    rw [show strLe a b = (chLe a.data b.data = true) from rfl] at h₁
    rw [show strLe b c = (chLe b.data c.data = true) from rfl] at h₂
    generalize hga : a.data = l at h₁ ⊢
    generalize hgb : b.data = m at h₁ h₂
    generalize hgc : c.data = o at h₂ ⊢
    clear hga hgb hgc a b c
    induction l generalizing m o with
    | nil => rfl
    | cons x xs ih =>
      cases m with
      | nil => simp [chLe] at h₁
      | cons y ys =>
        cases o with
        | nil => simp [chLe] at h₂
        | cons z zs =>
          simp only [chLe] at h₁ h₂ ⊢
          rcases lt_trichotomy x y with hxy | hxy | hxy
          · rcases lt_trichotomy y z with hyz | hyz | hyz
            · simp [lt_trans hxy hyz]
            · subst hyz; simp [hxy]
            · simp [asymm hyz, hyz] at h₂
          · subst hxy
            rcases lt_trichotomy x z with hyz | hyz | hyz
            · simp [hyz]
            · subst hyz
              simp only [lt_irrefl, if_false] at h₁ h₂ ⊢
              exact ih ys h₁ zs h₂
            · simp [asymm hyz, hyz] at h₂
          · simp [asymm hxy, hxy] at h₁

mutual

/-- `scanDir`'s handling of one entry: recurse into directories (an
unreadable one throws, modelled by `Except.error`), collect a matching
file's relative path. -/
def scanEntry (rel : String) : FTree → Except Unit (List String)
  | .file n => .ok (if isImageName n then [joinRel rel n] else [])
  | .dir _ none => .error ()
  | .dir n (some entries) => scanList (joinRel rel n) entries

/-- `scanDir`'s entry loop: depth-first, left to right; an exception anywhere
aborts the whole loop. -/
def scanList (rel : String) : List FTree → Except Unit (List String)
  | [] => .ok []
  | e :: es => do
    let a ← scanEntry rel e
    let b ← scanList rel es
    pure (a ++ b)

end

/-- `getAllImages`: scan the root directory (whose own `readdir` may throw)
and sort the collected relative paths.  JS `images.sort()` compares strings
by code unit; on a linear order any sort yields that unique sorted
permutation, modelled by `List.insertionSort`. -/
def getAllImages (root : Option (List FTree)) : Except Unit (List String) :=
  match root with
  | none => .error ()
  | some entries => do
    let images ← scanList "" entries
    pure (List.insertionSort strLe images)

/-- The slideshow loader's use of the scan: its `try`/`catch` turns any
exception from `getAllImages` into the empty image list. -/
def slideshowImages (root : Option (List FTree)) : List String :=
  match getAllImages root with
  | .ok images => images
  | .error _ => []

mutual

/-- Some directory in the subtree is unreadable. -/
def hasUnreadable : FTree → Bool
  | .file _ => false
  | .dir _ none => true
  | .dir _ (some entries) => hasUnreadableL entries

/-- Some directory among the entries' subtrees is unreadable. -/
def hasUnreadableL : List FTree → Bool
  | [] => false
  | e :: es => hasUnreadable e || hasUnreadableL es

end

mutual

/-- Every directory in the subtree is readable and named nonempty. -/
def readableTree : FTree → Bool
  | .file _ => true
  | .dir _ none => false
  | .dir n (some entries) => n ≠ "" && readableTreeL entries

/-- List version of `readableTree`. -/
def readableTreeL : List FTree → Bool
  | [] => true
  | e :: es => readableTree e && readableTreeL es

end

/-- Specification-side characterisation of the scan result: `p` is the
root-relative path of a file in the tree whose name passes the extension
allow-list. -/
inductive IsImagePath : FTree → String → Prop
  | file (n : String) : isImageName n = true → IsImagePath (.file n) n
  | dir (n : String) (entries : List FTree) (c : FTree) (p : String) :
      c ∈ entries → IsImagePath c p →
      IsImagePath (.dir n (some entries)) (joinRel n p)

/-- `p` is an image path of some entry of the list. -/
def IsImagePathL (entries : List FTree) (p : String) : Prop :=
  ∃ c ∈ entries, IsImagePath c p

/-! ### The seeded slideshow shuffle (src/unnamed/part_003, loader)

`mulberry32` on JS numbers: the state additions stay exact in doubles and
every bitwise operation reduces its operand modulo `2 ^ 32`, so the generator
is faithfully a function on naturals below `2 ^ 32`.  `Math.imul` is
multiplication modulo `2 ^ 32`, `^` is `Nat.xor`, `|` is `Nat.lor`, `>>>` is
`Nat.shiftRight` after the modulus. -/

/-- One step of `mulberry32`: new state and the raw 32-bit draw `m`; the JS
function returns `m / 4294967296`. -/
def mulberry32Next (a : Nat) : Nat × Nat :=
  let a' := (a + 0x6d2b79f5) % 2 ^ 32
  let t1 := ((a' ^^^ (a' >>> 15)) * (a' ||| 1)) % 2 ^ 32
  let t2 := t1 ^^^ ((t1 + ((t1 ^^^ (t1 >>> 7)) * (t1 ||| 61)) % 2 ^ 32) % 2 ^ 32)
  (a', t2 ^^^ (t2 >>> 14))

/-- `Math.floor(rand() * (i + 1))` for the raw draw `m`: exact for every
`m * (i + 1) < 2 ^ 53`, hence for every list the slideshow can hold. -/
def drawIndex (m i : Nat) : Nat :=
  m * (i + 1) / 2 ^ 32

/-- `[xs[i], xs[j]] = [xs[j], xs[i]]` on the modelled array. -/
def swapNth {α : Type} (l : List α) (i j : Nat) : List α :=
  match l.get? i, l.get? j with
  | some a, some b => (l.set i b).set j a
  | _, _ => l

/-- One iteration of the source's Fisher-Yates loop at index `i`. -/
def shuffleStep {α : Type} (st : Nat × List α) (i : Nat) : Nat × List α :=
  let (a, m) := mulberry32Next st.1
  (a, swapNth st.2 i (drawIndex m i))

/-- The loop indices `for (let i = images.length - 1; i > 0; i--)`. -/
def fyIndices (n : Nat) : List Nat :=
  ((List.range (n - 1)).map (· + 1)).reverse

/-- The seeded shuffle the slideshow loader applies to the sorted image
list: mulberry32 seeded with `seed >>> 0` driving the downward Fisher-Yates
loop. -/
def seededShuffle {α : Type} (seed : Nat) (xs : List α) : List α :=
  ((fyIndices xs.length).foldl shuffleStep (seed % 2 ^ 32, xs)).2

/-- One step of the shuffle as §4.4 of the specification words it: draw one
uniform value in `[0,1)` from the generator and swap the element at the
current index with the one at the floor of `draw * (index + 1)`. -/
def specShuffleStep {α : Type} (st : Nat × List α) (i : Nat) : Nat × List α :=
  let (a, m) := mulberry32Next st.1
  let draw : ℚ := (m : ℚ) / 4294967296
  (a, swapNth st.2 i ⌊draw * ((i : ℚ) + 1)⌋₊)

/-- The §4.4 shuffle: a generator seeded solely from the 32-bit seed drives
a Fisher-Yates shuffle iterating the index from the last element down to the
second. -/
def specShuffle {α : Type} (seed : Nat) (xs : List α) : List α :=
  ((fyIndices xs.length).foldl specShuffleStep (seed % 2 ^ 32, xs)).2

/-! ### Helper lemmas -/

theorem mulberry32Next_lt (a : Nat) : (mulberry32Next a).2 < 2 ^ 32 := by
  have hmod : ∀ x : Nat, x % 2 ^ 32 < 2 ^ 32 := fun x =>
    Nat.mod_lt x (by norm_num)
  have hsr : ∀ x k : Nat, x >>> k ≤ x := fun x k => by
    rw [Nat.shiftRight_eq_div_pow]
    exact Nat.div_le_self x (2 ^ k)
  simp only [mulberry32Next]
  apply Nat.xor_lt_two_pow
  · exact Nat.xor_lt_two_pow (hmod _) (hmod _)
  · exact lt_of_le_of_lt (hsr _ _) (Nat.xor_lt_two_pow (hmod _) (hmod _))

theorem drawIndex_le {m : Nat} (i : Nat) (hm : m < 2 ^ 32) :
    drawIndex m i ≤ i := by
  have h : m * (i + 1) < (i + 1) * 2 ^ 32 := by
    calc m * (i + 1) < 2 ^ 32 * (i + 1) :=
          (Nat.mul_lt_mul_right (Nat.succ_pos i)).mpr hm
    _ = (i + 1) * 2 ^ 32 := Nat.mul_comm _ _
  have := (Nat.div_lt_iff_lt_mul (k := 2 ^ 32) (by norm_num)).mpr h
  exact Nat.lt_succ_iff.mp this

/-- The rational floor of the spec's `draw * (index + 1)` equals the integer
division the source's exact double arithmetic computes. -/
theorem floor_draw_eq (m i : Nat) :
    ⌊(m : ℚ) / 4294967296 * ((i : ℚ) + 1)⌋₊ = m * (i + 1) / 2 ^ 32 := by
  have h1 : (m : ℚ) / 4294967296 * ((i : ℚ) + 1)
      = ((m * (i + 1) : ℕ) : ℚ) / ((4294967296 : ℕ) : ℚ) := by
    push_cast
    ring
  rw [h1, Nat.floor_div_nat, Nat.floor_natCast]
  norm_num

theorem specShuffleStep_eq {α : Type} :
    @specShuffleStep α = @shuffleStep α := by
  funext st i
  simp only [specShuffleStep, shuffleStep, drawIndex, floor_draw_eq]

/-- C2 (algebraic_relational): the claim states that removing one item from a
sorted list and re-running the seeded shuffle with the same seed leaves the
relative order of the remaining items unchanged — equivalently, shuffling the
reduced list equals erasing the item from the shuffle of the full list.  The
code (and its own comment "preserves ordering except for the removed file")
violates this: with seed 1 on the sorted list `[a, b, c, d]`, deleting `c`
flips `a` and `b` — the full shuffle runs `d, b, a, c`, the re-shuffle of the
reduced list runs `d, a, b`. -/
theorem c2_reshuffle_after_delete_reorders :
    seededShuffle 1 ["a", "b", "c", "d"] = ["d", "b", "a", "c"]
    ∧ seededShuffle 1 (["a", "b", "c", "d"].erase "c") = ["d", "a", "b"]
    ∧ (seededShuffle 1 ["a", "b", "c", "d"]).erase "c" = ["d", "b", "a"]
    ∧ seededShuffle 1 (["a", "b", "c", "d"].erase "c")
        ≠ (seededShuffle 1 ["a", "b", "c", "d"]).erase "c" := by
  refine ⟨by decide, by decide, by decide, by decide⟩

/-- C3 (functional_correctness): the slideshow permutation computed by the
source's loop (mulberry32 seeded from the 32-bit seed, Fisher-Yates from the
last index down to the second, swap target `floor(draw * (i + 1))`) is
exactly the permutation described by §4.4 of the specification, the draw
taken as the exact rational `m / 2^32 ∈ [0, 1)`.  Both sides are pure
functions of the seed and the input, so two runs with the same seed and the
same input produce identical output order. -/
theorem c3_shuffle_follows_spec_algorithm {α : Type} (seed : Nat)
    (xs : List α) : seededShuffle seed xs = specShuffle seed xs := by
  simp only [seededShuffle, specShuffle, specShuffleStep_eq]

/-- C10 (safety): every mulberry32 draw is a 32-bit natural, i.e. the JS
value `m / 2^32` lies in `[0, 1)`; hence every swap target
`j = floor(draw * (i + 1))` satisfies `j ≤ i`, and every loop index `i`
satisfies `1 ≤ i < n`, so the shuffle never indexes the array out of
bounds. -/
theorem c10_shuffle_indices_in_bounds (a i n : Nat) :
    (mulberry32Next a).2 < 2 ^ 32
    ∧ drawIndex (mulberry32Next a).2 i ≤ i
    ∧ (∀ k, k ∈ fyIndices n → 1 ≤ k ∧ k < n) := by
  refine ⟨mulberry32Next_lt a, drawIndex_le i (mulberry32Next_lt a), ?_⟩
  intro k hk
  simp only [fyIndices, List.mem_reverse, List.mem_map, List.mem_range] at hk
  omega

/-- Witness for C10 at concrete inputs: the third conjunct applied to the
loop index 3 of a 4-element list. -/
theorem c10_shuffle_indices_in_bounds_witness :
    (3 ∈ fyIndices 4) ∧ (1 ≤ 3 ∧ 3 < 4) :=
  ⟨by decide, (c10_shuffle_indices_in_bounds 1 2 4).2.2 3 (by decide)⟩

theorem compatSearch_fst_ne_none (fsys : String → Option FType)
    (cleanUrl firstDir : String) (ds : List String) :
    ∀ ops, (compatSearch fsys cleanUrl firstDir ds ops).1 ≠ none := by
  induction ds with
  | nil => intro ops; simp [compatSearch]
  | cons d ds ih =>
    intro ops
    simp only [compatSearch]
    cases h : fsys (pathJoin d cleanUrl) with
    | none => simpa [h] using ih (ops ++ [.access (pathJoin d cleanUrl)])
    | some t => simp [h]

theorem resolve_fst_ne_none (photoDirs : List String)
    (fsys : String → Option FType) (urlPath : String)
    (h : photoDirs ≠ []) :
    (resolvePhotoPath photoDirs fsys urlPath).1 ≠ none := by
  have he : photoDirs.isEmpty = false := by
    simpa [List.isEmpty_iff] using h
  simp only [resolvePhotoPath, he, Bool.false_eq_true, if_false]
  split
  · simp
  · split
    · simp
    · exact compatSearch_fst_ne_none fsys _ _ photoDirs []

/-- C1 (safety): the claim states that every resolved physical path, once
canonicalized, lies within the owning library's root, `..` segments yielding
a not-found outcome instead, on the alias-match, compatibility-search and
default-fallback branches alike.  The code performs no such
canonicalization check on any branch: with the single library
`/data/photos`, the alias-match branch resolves
`photos/../../etc/passwd` to the entry `/etc/passwd`, and the
compatibility-search and default-fallback branches resolve
`../secret/x.jpg` to `/data/secret/x.jpg` — all physical locations outside
the root, returned as entries rather than a not-found outcome, contradicting
the specification's mandatory security policy (§4.1). -/
theorem c1_resolver_escapes_library_root :
    ((resolvePhotoPath ["/data/photos"] fsEmpty "photos/../../etc/passwd").1
        = some (.entry "/etc/passwd" "/data/photos" "../../etc/passwd")
      ∧ isWithin "/data/photos" "/etc/passwd" = false)
    ∧ ((resolvePhotoPath ["/data/photos"] fsSecret "../secret/x.jpg").1
        = some (.entry "/data/secret/x.jpg" "/data/photos" "../secret/x.jpg")
      ∧ isWithin "/data/photos" "/data/secret/x.jpg" = false)
    ∧ ((resolvePhotoPath ["/data/photos"] fsEmpty "../secret/x.jpg").1
        = some (.entry "/data/secret/x.jpg" "/data/photos" "../secret/x.jpg")
      ∧ isWithin "/data/photos" "/data/secret/x.jpg" = false) := by
  exact ⟨⟨by decide, by decide⟩, ⟨by decide, by decide⟩, by decide, by decide⟩

/-- C6 as amended: `resolvePhotoPath` returns the unavailable outcome
(`null`) exactly when the parsed library list is empty; an unset
`PHOTO_DIRS` parses to the empty list, so every resolution is then
unavailable, and with at least one parsed library no resolution ever is.
(The claim's further assertion that an empty — set but blank — configuration
also yields the unavailable outcome is false; see the counterexample.) -/
theorem c6_unavailable_iff_no_parsed_library (photoDirs : List String)
    (fsys : String → Option FType) (urlPath : String) :
    ((resolvePhotoPath photoDirs fsys urlPath).1 = none ↔ photoDirs = [])
    ∧ parsePhotoDirs none = [] := by
  refine ⟨⟨fun h => ?_, fun h => by subst h; rfl⟩, rfl⟩
  by_contra hne
  exact resolve_fst_ne_none photoDirs fsys urlPath hne h

/-- Counterexample to C6 as stated: a configuration that is set to the empty
string is an empty configuration, yet it parses to the single library `""`,
and resolution then returns an entry, not the unavailable outcome. -/
theorem c6_blank_config_is_not_unavailable :
    parsePhotoDirs (some "") = [""]
    ∧ parsePhotoDirs (some "") ≠ []
    ∧ (resolvePhotoPath (parsePhotoDirs (some "")) fsEmpty "a").1
        = some (.entry "a" "" "a") := by
  exact ⟨by decide, by decide, by decide⟩

/-- C4 as amended: the thumbnail loader returns the not-found outcome when
resolution yields no location or the root listing, and the not-a-file
outcome (also 404) when the resolved physical path exists but is not a
regular file; but when the resolved physical path does not exist the `stat`
failure lands in the catch-all and the loader returns the generation-error
outcome (500) instead of the not-found outcome the claim states. -/
theorem c4_thumbnail_outcome_classification (photoDirs : List String)
    (fsys : String → Option FType) (generate : String → Bool)
    (filePath : String) :
    ((resolvePhotoPath photoDirs fsys filePath).1 = none →
      (apiThumbnailsLoader true true photoDirs fsys generate filePath).1
        = .notFound)
    ∧ (∀ ds, (resolvePhotoPath photoDirs fsys filePath).1 = some (.root ds) →
      (apiThumbnailsLoader true true photoDirs fsys generate filePath).1
        = .notFound)
    ∧ (∀ fp b r,
        (resolvePhotoPath photoDirs fsys filePath).1 = some (.entry fp b r) →
        (fsys fp = none →
          (apiThumbnailsLoader true true photoDirs fsys generate filePath).1
            = .genError)
        ∧ (fsys fp = some .dir →
          (apiThumbnailsLoader true true photoDirs fsys generate filePath).1
            = .notAFile)) := by
  rcases hres : resolvePhotoPath photoDirs fsys filePath with ⟨res, ops⟩
  refine ⟨fun h => ?_, fun ds h => ?_, fun fp b r h => ?_⟩
  · simp only at h
    subst h
    simp [apiThumbnailsLoader, hres]
  · simp only at h
    subst h
    simp [apiThumbnailsLoader, hres]
  · simp only at h
    subst h
    exact ⟨fun hfs => by simp [apiThumbnailsLoader, hres, hfs],
      fun hfs => by simp [apiThumbnailsLoader, hres, hfs]⟩

/-- Witness for C4 at concrete inputs: a root resolution gives 404, a
nonexistent resolved path gives the 500 generation error, an existing
directory gives the 404 not-a-file outcome. -/
theorem c4_thumbnail_outcome_classification_witness :
    ((resolvePhotoPath ["/lib"] fsEmpty "").1 = some (.root ["/lib"])
      ∧ (apiThumbnailsLoader true true ["/lib"] fsEmpty (fun _ => true) "").1
          = .notFound)
    ∧ ((resolvePhotoPath ["/lib"] fsEmpty "zz.jpg").1
          = some (.entry "/lib/zz.jpg" "/lib" "zz.jpg")
      ∧ fsEmpty "/lib/zz.jpg" = none
      ∧ (apiThumbnailsLoader true true ["/lib"] fsEmpty (fun _ => true)
          "zz.jpg").1 = .genError)
    ∧ ((resolvePhotoPath ["/lib"] fsLibDir "a").1
          = some (.entry "/lib/a" "/lib" "a")
      ∧ fsLibDir "/lib/a" = some .dir
      ∧ (apiThumbnailsLoader true true ["/lib"] fsLibDir (fun _ => true)
          "a").1 = .notAFile) :=
  ⟨⟨by decide, (c4_thumbnail_outcome_classification ["/lib"] fsEmpty
      (fun _ => true) "").2.1 ["/lib"] (by decide)⟩,
    ⟨by decide, by decide, ((c4_thumbnail_outcome_classification ["/lib"]
      fsEmpty (fun _ => true) "zz.jpg").2.2 "/lib/zz.jpg" "/lib" "zz.jpg"
      (by decide)).1 (by decide)⟩,
    ⟨by decide, by decide, ((c4_thumbnail_outcome_classification ["/lib"]
      fsLibDir (fun _ => true) "a").2.2 "/lib/a" "/lib" "a"
      (by decide)).2 (by decide)⟩⟩

/-- Counterexample to C4 as stated: a thumbnail request for a path that
exists in no configured library — here `zz.jpg` with the single library
`/lib` on an empty filesystem — resolves to the nonexistent default-fallback
path, `stat` throws, and the loader answers with the 500 generation error,
not with either 404 not-found outcome. -/
theorem c4_missing_path_gives_error_not_notFound :
    (apiThumbnailsLoader true true ["/lib"] fsEmpty (fun _ => true)
        "zz.jpg").1 = .genError
    ∧ ThumbOutcome.genError ≠ .notFound
    ∧ ThumbOutcome.genError ≠ .notAFile := by
  exact ⟨by decide, by decide, by decide⟩

/-- C5 as amended: when the request object is accessible to the handlers
(`reqAvail = true`) and the authorization predicate is false, both the
thumbnail and the photo entry point return the unauthorized outcome with an
empty filesystem trace — no stat, read, probe or generation precedes the
rejection.  (When the request object is not accessible, the code skips the
check entirely; see the counterexample.) -/
theorem c5_unauthorized_rejected_before_fs_work (photoDirs : List String)
    (fsys : String → Option FType) (generate : String → Bool)
    (filePath : String) :
    apiThumbnailsLoader true false photoDirs fsys generate filePath
        = (.unauthorized, [])
    ∧ apiPhotosLoader true false photoDirs fsys filePath
        = (.unauthorized, []) :=
  ⟨rfl, rfl⟩

/-- Counterexample to C5 as stated: on the platform variant where the
request object is unavailable (`reqAvail = false`), an unauthorized caller
is not rejected — the photo loader probes, stats and reads the file and
serves it. -/
theorem c5_platform_variant_skips_auth_check :
    apiPhotosLoader false false ["/lib"] fsLibFile "x.jpg"
      = (.ok, [.access "/lib/x.jpg", .stat "/lib/x.jpg", .read "/lib/x.jpg"])
    ∧ (apiPhotosLoader false false ["/lib"] fsLibFile "x.jpg").1
        ≠ .unauthorized
    ∧ (apiPhotosLoader false false ["/lib"] fsLibFile "x.jpg").2 ≠ [] := by
  exact ⟨by decide, by decide, by decide⟩

/-- C7 (functional_correctness): whenever the first segment of the cleaned
logical path equals the alias (base name) of some configured library, the
resolver selects a library carrying exactly that alias — never one with a
different alias — the remaining segments joined by `/` form its
`relativePath`, and `fullPath` is the selected root joined with that
relative path. -/
theorem c7_alias_selects_matching_library (photoDirs : List String)
    (fsys : String → Option FType) (urlPath : String)
    (hclean : stripSlashes urlPath ≠ "")
    (halias : ∃ d ∈ photoDirs,
      basename d = (splitSlash (stripSlashes urlPath)).headD "") :
    ∃ d ∈ photoDirs,
      basename d = (splitSlash (stripSlashes urlPath)).headD ""
      ∧ (resolvePhotoPath photoDirs fsys urlPath).1
          = some (.entry
              (pathJoin d (joinSlash (splitSlash (stripSlashes urlPath)).tail))
              d (joinSlash (splitSlash (stripSlashes urlPath)).tail)) := by
  obtain ⟨d, hd, hb⟩ := halias
  have hne : photoDirs ≠ [] := List.ne_nil_of_mem hd
  have he : photoDirs.isEmpty = false := by
    simpa [List.isEmpty_iff] using hne
  have hfind : (photoDirs.find? fun dir =>
      basename dir == (splitSlash (stripSlashes urlPath)).headD "").isSome :=
    List.find?_isSome.mpr ⟨d, hd, by simp [hb]⟩
  obtain ⟨d₀, hd₀⟩ := Option.isSome_iff_exists.mp hfind
  refine ⟨d₀, List.mem_of_find?_eq_some hd₀, ?_, ?_⟩
  · simpa using List.find?_some hd₀
  · simp only [resolvePhotoPath, he, Bool.false_eq_true, if_false, hclean,
      if_neg hclean, hd₀]

/-- Witness for C7: with libraries `/a/pics` and `/b/extra`, the path
`extra/sub/x.jpg` selects the second library, whose alias is `extra`. -/
theorem c7_alias_selects_matching_library_witness :
    (stripSlashes "extra/sub/x.jpg" ≠ ""
      ∧ ∃ d ∈ ["/a/pics", "/b/extra"],
          basename d = (splitSlash (stripSlashes "extra/sub/x.jpg")).headD "")
    ∧ ∃ d ∈ ["/a/pics", "/b/extra"],
        basename d = (splitSlash (stripSlashes "extra/sub/x.jpg")).headD ""
        ∧ (resolvePhotoPath ["/a/pics", "/b/extra"] fsEmpty
              "extra/sub/x.jpg").1
            = some (.entry
                (pathJoin "/b/extra" (joinSlash
                  (splitSlash (stripSlashes "extra/sub/x.jpg")).tail))
                "/b/extra" (joinSlash
                  (splitSlash (stripSlashes "extra/sub/x.jpg")).tail)) := by
  refine ⟨⟨by decide, ⟨"/b/extra", by decide, by decide⟩⟩, ?_⟩
  have h := c7_alias_selects_matching_library ["/a/pics", "/b/extra"] fsEmpty
    "extra/sub/x.jpg" (by decide) ⟨"/b/extra", by decide, by decide⟩
  obtain ⟨d, hd, hb, hres⟩ := h
  have hd' : d = "/b/extra" := by
    fin_cases hd <;> first | rfl | (exfalso; revert hb; decide)
  subst hd'
  exact ⟨"/b/extra", hd, hb, hres⟩

theorem except_bind_error {ε α β : Type} (u : ε) (f : α → Except ε β) :
    (Except.error u >>= f) = Except.error u := rfl

theorem except_bind_ok {ε α β : Type} (a : α) (f : α → Except ε β) :
    (Except.ok a >>= f) = f a := rfl

mutual

theorem scanEntry_error : ∀ t, hasUnreadable t = true → ∀ rel,
    scanEntry rel t = .error ()
  | .file _, h, _ => by simp [hasUnreadable] at h
  | .dir _ none, _, rel => by simp [scanEntry]
  | .dir n (some entries), h, rel => by
    have h' : hasUnreadableL entries = true := by
      simpa [hasUnreadable] using h
    simpa [scanEntry] using scanList_error entries h' (joinRel rel n)

theorem scanList_error : ∀ entries, hasUnreadableL entries = true → ∀ rel,
    scanList rel entries = .error ()
  | [], h, _ => by simp [hasUnreadableL] at h
  | e :: es, h, rel => by
    have h' : hasUnreadable e = true ∨ hasUnreadableL es = true := by
      simpa [hasUnreadableL, Bool.or_eq_true] using h
    rcases h' with h' | h'
    · simp [scanList, scanEntry_error e h' rel, except_bind_error]
    · cases hse : scanEntry rel e with
      | error u => simp [scanList, hse, except_bind_error]
      | ok a => simp [scanList, hse, except_bind_ok,
          scanList_error es h' rel, except_bind_error]

end

/-- C8 as amended: a failure to read a directory anywhere below the scan
root is not treated as an empty subtree — it propagates out of the
recursion, the whole scan fails, and the slideshow loader's catch turns the
failure into an empty image list, so a single unreadable nested folder does
blank the entire listing. -/
theorem c8_amended_nested_failure_blanks_scan (entries : List FTree)
    (h : hasUnreadableL entries = true) :
    getAllImages (some entries) = .error ()
    ∧ slideshowImages (some entries) = [] := by
  have hs := scanList_error entries h ""
  constructor
  · simp [getAllImages, hs, except_bind_error]
  · simp [slideshowImages, getAllImages, hs, except_bind_error]

/-- Witness for C8's amended theorem at a concrete tree: a readable root
holding `a.jpg` next to one unreadable subdirectory. -/
theorem c8_amended_nested_failure_blanks_scan_witness :
    hasUnreadableL [.file "a.jpg", .dir "sub" none] = true
    ∧ (getAllImages (some [.file "a.jpg", .dir "sub" none]) = .error ()
      ∧ slideshowImages (some [.file "a.jpg", .dir "sub" none]) = []) :=
  ⟨by simp [hasUnreadableL, hasUnreadable],
    c8_amended_nested_failure_blanks_scan _
      (by simp [hasUnreadableL, hasUnreadable])⟩

theorem joinRel_assoc (rel n q : String) (hn : n ≠ "") :
    joinRel (joinRel rel n) q = joinRel rel (joinRel n q) := by
  by_cases hr : rel = ""
  · subst hr
    simp [joinRel]
  · have hrn : rel ++ "/" ++ n ≠ "" := by
      intro hc
      apply hr
      have hd := congrArg String.data hc
      simp only [String.data_append] at hd
      rcases List.append_eq_nil.mp (List.append_eq_nil.mp hd).1 with ⟨h1, -⟩
      cases rel
      simp_all
    simp [joinRel, hr, hn, hrn, String.append_assoc]
    intro hc
    exact absurd ((String.append_assoc rel "/" n).trans hc) hrn

mutual

theorem scanEntry_ok : ∀ t, readableTree t = true → ∀ rel, ∃ l,
    scanEntry rel t = .ok l
    ∧ ∀ p, p ∈ l ↔ ∃ q, IsImagePath t q ∧ p = joinRel rel q
  | .file n, _, rel => by
    refine ⟨if isImageName n then [joinRel rel n] else [],
      by simp [scanEntry], fun p => ?_⟩
    by_cases him : isImageName n
    · simp only [him, if_true, List.mem_singleton]
      constructor
      · intro hp
        exact ⟨n, IsImagePath.file n him, hp⟩
      · rintro ⟨q, hq, hpq⟩
        cases hq
        exact hpq
    · simp only [him, if_false]
      constructor
      · intro hp
        simp at hp
      · rintro ⟨q, hq, hpq⟩
        cases hq with
        | file _ h => exact absurd h him
  | .dir _ none, h, rel => by simp [readableTree] at h
  | .dir n (some entries), h, rel => by
    have h' : n ≠ "" ∧ readableTreeL entries = true := by
      simpa [readableTree, Bool.and_eq_true] using h
    obtain ⟨l, hsl, hmem⟩ := scanList_ok entries h'.2 (joinRel rel n)
    refine ⟨l, by simpa [scanEntry] using hsl, fun p => ?_⟩
    rw [hmem p]
    constructor
    · rintro ⟨q, ⟨c, hc, hcq⟩, hpq⟩
      exact ⟨joinRel n q, IsImagePath.dir n entries c q hc hcq,
        by rw [hpq, joinRel_assoc rel n q h'.1]⟩
    · rintro ⟨q', hq', hpq'⟩
      cases hq' with
      | dir _ _ c q hc hcq =>
        exact ⟨q, ⟨c, hc, hcq⟩,
          by rw [hpq', joinRel_assoc rel n q h'.1]⟩

theorem scanList_ok : ∀ entries, readableTreeL entries = true → ∀ rel, ∃ l,
    scanList rel entries = .ok l
    ∧ ∀ p, p ∈ l ↔ ∃ q, IsImagePathL entries q ∧ p = joinRel rel q
  | [], _, rel => ⟨[], by simp [scanList], by simp [IsImagePathL]⟩
  | e :: es, h, rel => by
    have h' : readableTree e = true ∧ readableTreeL es = true := by
      simpa [readableTreeL, Bool.and_eq_true] using h
    obtain ⟨l₁, h1, m1⟩ := scanEntry_ok e h'.1 rel
    obtain ⟨l₂, h2, m2⟩ := scanList_ok es h'.2 rel
    refine ⟨l₁ ++ l₂,
      by simp [scanList, h1, h2, except_bind_ok], fun p => ?_⟩
    simp only [List.mem_append, m1 p, m2 p, IsImagePathL, List.mem_cons]
    constructor
    · rintro (⟨q, hq, hpq⟩ | ⟨q, ⟨c, hc, hcq⟩, hpq⟩)
      · exact ⟨q, ⟨e, Or.inl rfl, hq⟩, hpq⟩
      · exact ⟨q, ⟨c, Or.inr hc, hcq⟩, hpq⟩
    · rintro ⟨q, ⟨c, (rfl | hc), hcq⟩, hpq⟩
      · exact Or.inl ⟨q, hcq, hpq⟩
      · exact Or.inr ⟨q, ⟨c, hc, hcq⟩, hpq⟩

end

/-- C9 (functional_correctness): on a fully readable tree (with the real
readdir guarantee that entry names are nonempty), the recursive listing
succeeds, is sorted under the code-unit order JS `sort()` applies, and
contains exactly the root-relative paths of the files whose extension is in
the case-insensitive allow-list; on the claim's example tree it returns
exactly `["a.JPG", "b.png", "sub/c.webp"]`. -/
theorem c9_listImages_sorted_allowlist (entries : List FTree)
    (h : readableTreeL entries = true) :
    (∃ l, getAllImages (some entries) = .ok l
      ∧ List.Sorted strLe l
      ∧ ∀ p, p ∈ l ↔ IsImagePathL entries p)
    ∧ getAllImages (some [.file "b.png", .file "a.JPG",
        .dir "sub" (some [.file "c.webp"]), .file "notes.txt"])
      = .ok ["a.JPG", "b.png", "sub/c.webp"] := by
  constructor
  · obtain ⟨l, hsl, hmem⟩ := scanList_ok entries h ""
    refine ⟨List.insertionSort strLe l, ?_, ?_, fun p => ?_⟩
    · simp [getAllImages, hsl, except_bind_ok]
    · exact List.sorted_insertionSort strLe l
    · rw [List.mem_insertionSort, hmem p]
      simp [joinRel]
  · simp only [getAllImages, scanList, scanEntry]
    decide

/-- Witness for C9 at the claim's example tree. -/
theorem c9_listImages_sorted_allowlist_witness :
    readableTreeL [.file "b.png", .file "a.JPG",
        .dir "sub" (some [.file "c.webp"]), .file "notes.txt"] = true
    ∧ ∃ l, getAllImages (some [.file "b.png", .file "a.JPG",
        .dir "sub" (some [.file "c.webp"]), .file "notes.txt"]) = .ok l
      ∧ List.Sorted strLe l
      ∧ ∀ p, p ∈ l ↔ IsImagePathL [.file "b.png", .file "a.JPG",
          .dir "sub" (some [.file "c.webp"]), .file "notes.txt"] p :=
  ⟨by simp [readableTreeL, readableTree],
    (c9_listImages_sorted_allowlist _
      (by simp [readableTreeL, readableTree])).1⟩

/-- Counterexample to C8 as stated: the claim says the scan still returns
the matching files of the readable parts — here `a.jpg` — when a deeper
directory is unreadable; instead the whole scan errors and the slideshow
loader returns the empty list, while the same tree without the unreadable
folder does yield `a.jpg`. -/
theorem c8_unreadable_subtree_does_not_scan_rest :
    slideshowImages (some [.file "a.jpg", .dir "sub" none]) = []
    ∧ slideshowImages (some [.file "a.jpg"]) = ["a.jpg"]
    ∧ ([] : List String) ≠ ["a.jpg"] := by
  refine ⟨?_, ?_, by decide⟩
  · simp only [slideshowImages, getAllImages, scanList, scanEntry]
    decide
  · simp only [slideshowImages, getAllImages, scanList, scanEntry]
    decide
end MediaBrowser
